import Mathlib

/-!
Formal model of the TCP RPC server (rpc-server/server.js together with the
protocol module): newline framing of the byte stream, request authentication,
the global FIFO job queue driven by a single-lane dispatcher guarded by the
isProcessing flag, and method dispatch with best-effort audit writes.

Strings from the wire are modelled as lists of characters; the per-connection
buffer logic is translated from the data handler of server.js:
  buffer += data; messages = buffer.split newline; buffer = messages.pop().
-/
/-! ### Frame codec -/
/-- JavaScript `s.split('\n')` on a character list: always returns at least one
part; parts are the maximal newline-free segments, in order. -/
def splitNl : List Char → List (List Char)
  | [] => [[]]
  | c :: cs =>
    if c = '\n' then [] :: splitNl cs
    else
      match splitNl cs with
      | [] => [[c]]
      | p :: ps => (c :: p) :: ps

/-- One `data` event of server.js: append the chunk to the buffer, split on
newline, keep the final (possibly empty) fragment buffered; the complete
messages are everything before it. -/
def feed (buffer chunk : List Char) : List (List Char) × List Char :=
  let parts := splitNl (buffer ++ chunk)
  (parts.dropLast, parts.getLastD [])

/-- Feeding a sequence of chunks in order, accumulating the complete messages
produced and threading the buffer. -/
def feedAll (buffer : List Char) : List (List Char) → List (List Char) × List Char
  | [] => ([], buffer)
  | c :: cs =>
    let r := feed buffer c
    let r2 := feedAll r.2 cs
    (r.1 ++ r2.1, r2.2)

/-! ### PDU model (protocol.js) -/
/-- Method-specific body fields that the handlers of server.js read. -/
structure Payload where
  filename : Option String
  content : Option String
  user_id : Option String
deriving Repr, DecidableEq, Inhabited

/-- PDU header, as built by createMessage in protocol.js. The auth token and
request id are optional on the wire (a request may omit them). -/
structure Header where
  auth_token : Option String
  timestamp : Nat
  method : String
  request_id : Option String
deriving Repr, DecidableEq, Inhabited

/-- The header+body envelope every request carries. -/
structure Message where
  header : Header
  body : Payload
deriving Repr, DecidableEq, Inhabited

def RPC_METHODS.UPLOAD_FILE : String := "UPLOAD_FILE"

def RPC_METHODS.LIST_FILES : String := "LIST_FILES"

def RPC_METHODS.DELETE_FILE : String := "DELETE_FILE"

def RPC_METHODS.CHECK_BALANCE : String := "CHECK_BALANCE"

def RPC_METHODS.PING : String := "PING"

/-- The method names with a registered handler in executeMethod. -/
def registeredMethods : List String :=
  [RPC_METHODS.UPLOAD_FILE, RPC_METHODS.LIST_FILES, RPC_METHODS.DELETE_FILE,
   RPC_METHODS.CHECK_BALANCE, RPC_METHODS.PING]

/-- The shared secret configured in server.js. -/
def AUTH_TOKEN : String := "SECRET_123"

/-- A queued job, as pushed by the data handler of server.js. -/
structure Job where
  method : String
  payload : Payload
  requestId : Option String
  connId : Nat
  receivedAt : Nat
deriving Repr, DecidableEq, Inhabited

/-- Result value of a registered handler, one constructor per method of the
switch in executeMethod, fields in source order. -/
inductive MethodResult where
  | uploadResult (message : String) (filename : Option String) (size : Nat) (storedAt : Nat)
  | listResult (files : List (String × Nat × Nat)) (message : String)
  | deleteResult (message : String) (filename : Option String) (deletedAt : Nat)
  | balanceResult (user_id : Option String) (balance : Nat) (currency : String)
  | pingResult (pong : Bool) (serverTime : Nat) (uptime : Nat)
deriving Repr, DecidableEq

/-- The result slot of a response: a handler result, an error message
string, or null. -/
inductive ResultValue where
  | ofResult (r : MethodResult)
  | ofString (s : String)
  | null
deriving Repr, DecidableEq

/-- Response envelope built by createResponse in protocol.js. -/
structure Response where
  status : String
  result : ResultValue
  request_id : Option String
  timestamp : Nat
deriving Repr, DecidableEq

/-- createResponse from protocol.js (the newline terminator is applied at
serialization time and is not part of the envelope). -/
def createResponse (status : String) (result : ResultValue)
    (request_id : Option String) (now : Nat) : Response :=
  { status := status, result := result, request_id := request_id, timestamp := now }

/-- The argument record of the convex uploads:logUpload mutation. -/
structure UploadRecord where
  filename : Option String
  fileSize : Nat
  contentPreview : String
  status : String
deriving Repr, DecidableEq

/-- JavaScript `payload.content ? payload.content.length : 0`. -/
def contentSize (p : Payload) : Nat :=
  match p.content with
  | some c => c.length
  | none => 0

/-- JavaScript `payload.content ? payload.content.substring(0, 50) : ""`. -/
def contentPreview50 (p : Payload) : String :=
  match p.content with
  | some c => c.take 50
  | none => ""

/-! ### Method dispatcher (executeMethod in server.js) -/
/-- executeMethod: the string switch of server.js. The external audit store is
a parameter `sink`; its outcome is inspected only to be logged and is swallowed
either way (the try/catch around the convex mutation). The returned list
records the audit calls the handler made, in order. `now`, `startTime` and
`rand` stand for Date.now(), the process start time and Math.random(). -/
def executeMethod (sink : UploadRecord → Except String Unit)
    (now startTime rand : Nat) (method : String) (payload : Payload) :
    Except String MethodResult × List UploadRecord :=
  if method = RPC_METHODS.UPLOAD_FILE then
    let record : UploadRecord :=
      { filename := payload.filename, fileSize := contentSize payload,
        contentPreview := contentPreview50 payload, status := "completed" }
    let _ :=
      match sink record with
      | .ok _ => ()
      | .error _ => ()
    (.ok (.uploadResult "File uploaded successfully" payload.filename
        (contentSize payload) now), [record])
  else if method = RPC_METHODS.LIST_FILES then
    (.ok (.listResult [("example.txt", 1024, now)] "Files retrieved from RPC server"), [])
  else if method = RPC_METHODS.DELETE_FILE then
    (.ok (.deleteResult "File deleted successfully" payload.filename now), [])
  else if method = RPC_METHODS.CHECK_BALANCE then
    (.ok (.balanceResult payload.user_id (rand % 10000) "USD"), [])
  else if method = RPC_METHODS.PING then
    (.ok (.pingResult true now ((now - startTime) / 1000)), [])
  else
    (.error ("Unknown method: " ++ method), [])

/-- Observable outcome of the worker finishing one job. -/
structure JobOutcome where
  write : Option Response
  audits : List UploadRecord
  socketOpen : Bool
deriving Repr, DecidableEq

/-- The body of processQueue for the job taken from the head of the queue:
execute the method, then write an OK or ERROR response, skipping the write
when the owning socket is destroyed. The worker never closes the socket. -/
def finishJob (sink : UploadRecord → Except String Unit)
    (now startTime rand : Nat) (job : Job) (socketOpen : Bool) : JobOutcome :=
  match executeMethod sink now startTime rand job.method job.payload with
  | (.ok result, audits) =>
    { write := if socketOpen then
        some (createResponse "OK" (.ofResult result) job.requestId now) else none,
      audits := audits, socketOpen := socketOpen }
  | (.error e, audits) =>
    { write := if socketOpen then
        some (createResponse "ERROR" (.ofString e) job.requestId now) else none,
      audits := audits, socketOpen := socketOpen }

/-! ### Connection data handler (socket data event in server.js) -/
/-- JavaScript String.prototype.trim on a character list. -/
def trimChars (l : List Char) : List Char :=
  ((l.dropWhile Char.isWhitespace).reverse.dropWhile Char.isWhitespace).reverse

/-- Result of running the per-chunk message loop of the data handler. -/
structure HandleResult where
  writes : List Response
  queue : List Job
  stillOpen : Bool
deriving Repr, DecidableEq

/-- The for-loop over the complete messages extracted from one chunk, as in
server.js: blank messages are skipped; a message that fails to parse gets one
generic ERROR response and the loop continues; a parsed message with a wrong
auth token gets one Unauthorized ERROR response, the socket is ended and the
handler returns (abandoning the remaining messages); an admitted message is
pushed onto the queue as a job. `parse` models JSON.parse of the trimmed raw
text together with the header accesses (none models a thrown exception). -/
def handleMessages (parse : List Char → Option Message) (connId now : Nat) :
    List (List Char) → List Job → HandleResult
  | [], queue => { writes := [], queue := queue, stillOpen := true }
  | raw :: rest, queue =>
    if trimChars raw = [] then
      handleMessages parse connId now rest queue
    else
      match parse raw with
      | none =>
        let r := handleMessages parse connId now rest queue
        { r with writes :=
            createResponse "ERROR" (.ofString "Invalid message format") none now :: r.writes }
      | some message =>
        if message.header.auth_token ≠ some AUTH_TOKEN then
          { writes := [createResponse "ERROR" (.ofString "Unauthorized")
              message.header.request_id now],
            queue := queue, stillOpen := false }
        else
          handleMessages parse connId now rest
            (queue ++ [{ method := message.header.method, payload := message.body,
                         requestId := message.header.request_id, connId := connId,
                         receivedAt := now }])

/-- One data event: buffer the chunk, split on newline, keep the trailing
fragment, then run the message loop on the complete messages. -/
def handleChunk (parse : List Char → Option Message) (connId now : Nat)
    (buffer chunk : List Char) (queue : List Job) :
    List Char × HandleResult :=
  let r := feed buffer chunk
  (r.2, handleMessages parse connId now r.1 queue)

/-! ### Dispatcher state machine (processQueue in server.js)

Node.js runs the server single-threaded and cooperatively: the code between
two suspension points executes atomically. Each call of processQueue is a
task; its guard check, flag set and queue shift happen in one atomic block,
after which the task is suspended inside the job window (the simulated I/O
delay, the handler and the audit write); clearing the flag and rescheduling
happen when the window ends. The steps below are exactly these atomic
blocks, with enqueueing from any connection freely interleaved. -/
/-- A scheduled invocation of processQueue: either it has not yet run its
guard, or it passed the guard and is inside the invoke-handler-to-write
window, holding the job it shifted from the queue. -/
inductive WorkerTask where
  | pending
  | running (j : Job)
deriving Repr, DecidableEq

def WorkerTask.isRunning : WorkerTask → Bool
  | .pending => false
  | .running _ => true

/-- Dispatcher state: the shared queue and busy flag of server.js, the
multiset of in-flight processQueue invocations, and two history variables
recording the admission order and the execution-begin order of jobs. -/
structure DState where
  processingQueue : List Job
  isProcessing : Bool
  tasks : List WorkerTask
  admitted : List Job
  started : List Job
deriving Repr, DecidableEq

def initState : DState :=
  { processingQueue := [], isProcessing := false, tasks := [],
    admitted := [], started := [] }

/-- One atomic scheduler step. -/
inductive DStep : DState → DState → Prop where
  | enqueue (s : DState) (j : Job) :
      DStep s { s with processingQueue := s.processingQueue ++ [j],
                       admitted := s.admitted ++ [j],
                       tasks := s.tasks ++ [.pending] }
  | guardReturn (s : DState) (t1 t2 : List WorkerTask) :
      s.tasks = t1 ++ .pending :: t2 →
      (s.isProcessing = true ∨ s.processingQueue = []) →
      DStep s { s with tasks := t1 ++ t2 }
  | guardPass (s : DState) (t1 t2 : List WorkerTask) (j : Job) (rest : List Job) :
      s.tasks = t1 ++ .pending :: t2 →
      s.isProcessing = false →
      s.processingQueue = j :: rest →
      DStep s { processingQueue := rest, isProcessing := true,
                tasks := t1 ++ .running j :: t2,
                admitted := s.admitted, started := s.started ++ [j] }
  | finish (s : DState) (t1 t2 : List WorkerTask) (j : Job) :
      s.tasks = t1 ++ .running j :: t2 →
      DStep s { s with isProcessing := false, tasks := t1 ++ .pending :: t2 }

/-- States reachable from the initial server state. -/
inductive Reachable : DState → Prop where
  | init : Reachable initState
  | step {s s' : DState} : Reachable s → DStep s s' → Reachable s'

/-- Number of jobs currently inside the invoke-handler-to-write window. -/
def runningCount (s : DState) : Nat :=
  (s.tasks.filter WorkerTask.isRunning).length

/-- The inductive invariant: the busy flag counts the running windows
exactly, and the started log and the queue partition the admission log. -/
def DInv (s : DState) : Prop :=
  (s.isProcessing = true → runningCount s = 1) ∧
  (s.isProcessing = false → runningCount s = 0) ∧
  s.started ++ s.processingQueue = s.admitted


/-! ### Concrete sample data used by the closed witness theorems -/

/-- A valid PING job. -/
def jobPing : Job :=
  { method := "PING", payload := { filename := none, content := none, user_id := none },
    requestId := some "r1", connId := 0, receivedAt := 0 }

/-- An admitted job whose method has no registered handler. -/
def jobNope : Job :=
  { method := "NOPE", payload := { filename := none, content := none, user_id := none },
    requestId := some "r4", connId := 0, receivedAt := 0 }

/-- A well-formed upload job. -/
def jobUpload : Job :=
  { method := "UPLOAD_FILE",
    payload := { filename := some "a.txt", content := some "hello", user_id := none },
    requestId := some "r3", connId := 0, receivedAt := 0 }

/-- A request whose auth token does not match the shared secret. -/
def msgBadAuth : Message :=
  { header := { auth_token := some "WRONG", timestamp := 0, method := "PING",
                request_id := some "r9" },
    body := { filename := none, content := none, user_id := none } }

/-- A parser that accepts every frame as the bad-auth request. -/
def parseBad : List Char → Option Message := fun _ => some msgBadAuth

/-- A parser that rejects every frame (JSON.parse always throws). -/
def parseFail : List Char → Option Message := fun _ => none

/-- An audit sink that fails on every call. -/
def failingSink : UploadRecord → Except String Unit := fun _ => .error "convex unreachable"

/-- The dispatcher state after admitting jobPing from a connection. -/
def dState1 : DState :=
  { processingQueue := [jobPing], isProcessing := false, tasks := [.pending],
    admitted := [jobPing], started := [] }

/-- The dispatcher state after the worker passed the guard and entered the
execution window for jobPing. -/
def dState2 : DState :=
  { processingQueue := [], isProcessing := true, tasks := [.running jobPing],
    admitted := [jobPing], started := [jobPing] }

/-! ### Theorems -/

theorem splitNl_ne_nil (l : List Char) : splitNl l ≠ [] := by
  cases l with
  | nil => simp [splitNl]
  | cons c cs =>
    simp only [splitNl]
    by_cases h : c = '\n'
    · simp [h]
    · simp only [h, if_false]
      cases hs : splitNl cs <;> simp

theorem splitNl_exists_cons (l : List Char) : ∃ p ps, splitNl l = p :: ps := by
  cases h : splitNl l with
  | nil => exact absurd h (splitNl_ne_nil l)
  | cons p ps => exact ⟨p, ps, rfl⟩

theorem getLastD_default_irrel {α : Type} (l : List α) (h : l ≠ []) (a b : α) :
    l.getLastD a = l.getLastD b := by
  cases l with
  | nil => exact absurd rfl h
  | cons x xs => simp only [List.getLastD_cons]

theorem getLastD_append_of_ne_nil {α : Type} (xs ys : List α) (h : ys ≠ []) (d : α) :
    (xs ++ ys).getLastD d = ys.getLastD d := by
  simp [List.getLastD_eq_getLast?, List.getLast?_append_of_ne_nil _ h]

theorem getLastD_concat {α : Type} (l : List α) (a d : α) : (l ++ [a]).getLastD d = a := by
  simp [List.getLastD_eq_getLast?]

/-- A character list without newlines is a single frame fragment. -/
theorem splitNl_of_not_mem (l : List Char) (h : '\n' ∉ l) : splitNl l = [l] := by
  induction l with
  | nil => rfl
  | cons c cs ih =>
    have hc : c ≠ '\n' := fun hc => h (hc ▸ List.mem_cons_self c cs)
    have hcs : '\n' ∉ cs := fun hm => h (List.mem_cons_of_mem c hm)
    simp [splitNl, hc, ih hcs]

/-- Splitting off one complete newline-terminated message. -/
theorem splitNl_msg (m s : List Char) (h : '\n' ∉ m) :
    splitNl (m ++ '\n' :: s) = m :: splitNl s := by
  induction m with
  | nil => simp [splitNl]
  | cons c m ih =>
    have hc : c ≠ '\n' := fun hc => h (hc ▸ List.mem_cons_self c m)
    have hm : '\n' ∉ m := fun hmem => h (List.mem_cons_of_mem c hmem)
    simp [List.cons_append, splitNl, hc, ih hm]

/-- Appending more bytes only extends the final fragment of the split. -/
theorem splitNl_append (u v : List Char) :
    ∃ ps p, splitNl u = ps ++ [p] ∧ splitNl (u ++ v) = ps ++ splitNl (p ++ v) := by
  induction u with
  | nil => exact ⟨[], [], rfl, rfl⟩
  | cons c u ih =>
    obtain ⟨ps, p, h1, h2⟩ := ih
    by_cases hc : c = '\n'
    · subst hc
      refine ⟨[] :: ps, p, ?_, ?_⟩
      · simp [splitNl, h1]
      · simp [splitNl, h2]
    · cases ps with
      | nil =>
        obtain ⟨r, rs, hr⟩ := splitNl_exists_cons (p ++ v)
        refine ⟨[], c :: p, ?_, ?_⟩
        · simp only [List.nil_append] at h1
          simp [splitNl, hc, h1]
        · simp only [List.nil_append] at h2
          simp [List.cons_append, splitNl, hc, h2, hr]
      | cons q ps =>
        refine ⟨(c :: q) :: ps, p, ?_, ?_⟩
        · simp only [List.cons_append] at h1
          simp [splitNl, hc, h1]
        · simp only [List.cons_append] at h2
          simp [splitNl, hc, h2]

/-- The buffered fragment left by a split never contains a newline. -/
theorem not_mem_getLastD_splitNl (l : List Char) : '\n' ∉ (splitNl l).getLastD [] := by
  induction l with
  | nil => simp [splitNl]
  | cons c cs ih =>
    obtain ⟨q, qs, hq⟩ := splitNl_exists_cons cs
    rw [hq] at ih
    by_cases hc : c = '\n'
    · have hrw : splitNl (c :: cs) = [] :: q :: qs := by simp [splitNl, hc, hq]
      rw [hrw]
      simpa only [List.getLastD_cons] using ih
    · have hrw : splitNl (c :: cs) = (c :: q) :: qs := by simp [splitNl, hc, hq]
      rw [hrw]
      cases qs with
      | nil =>
        simp only [List.getLastD_cons, List.getLastD_nil] at ih ⊢
        intro hmem
        rcases List.mem_cons.mp hmem with h | h
        · exact hc h.symm
        · exact ih h
      | cons q2 qs2 =>
        simpa only [List.getLastD_cons] using ih

/-- Feeding the concatenation of two chunks equals feeding them in sequence. -/
theorem feed_feed (buf c d : List Char) :
    feed buf (c ++ d) =
      ((feed buf c).1 ++ (feed (feed buf c).2 d).1, (feed (feed buf c).2 d).2) := by
  obtain ⟨ps, p, h1, h2⟩ := splitNl_append (buf ++ c) d
  have hfc : feed buf c = (ps, p) := by
    simp [feed, h1, List.dropLast_concat, getLastD_concat]
  have hne : splitNl (p ++ d) ≠ [] := splitNl_ne_nil _
  have hassoc : buf ++ (c ++ d) = (buf ++ c) ++ d := by simp
  rw [hfc]
  simp only [feed, hassoc, h2]
  rw [List.dropLast_append_of_ne_nil ps hne, getLastD_append_of_ne_nil ps _ hne]

/-- Feeding chunks one at a time is the same as feeding their concatenation,
provided the starting buffer holds no complete frame. -/
theorem feedAll_eq_feed_flatten (buf : List Char) (cs : List (List Char))
    (hbuf : '\n' ∉ buf) : feedAll buf cs = feed buf cs.flatten := by
  induction cs generalizing buf with
  | nil =>
    simp [feedAll, feed, splitNl_of_not_mem buf hbuf, List.getLastD_eq_getLast?]
  | cons c cs ih =>
    have hbuf2 : '\n' ∉ (feed buf c).2 := by
      simp only [feed]
      exact not_mem_getLastD_splitNl (buf ++ c)
    simp only [feedAll, List.flatten_cons, feed_feed buf c cs.flatten, ih _ hbuf2]

/-- Splitting a fully terminated concatenation recovers the messages, with the
unterminated tail as the final fragment. -/
theorem splitNl_terminated (msgs : List (List Char)) (rest : List Char)
    (hm : ∀ m ∈ msgs, '\n' ∉ m) (hr : '\n' ∉ rest) :
    splitNl ((msgs.map (fun m => m ++ ['\n'])).flatten ++ rest) = msgs ++ [rest] := by
  induction msgs with
  | nil => simp [splitNl_of_not_mem rest hr]
  | cons m msgs ih =>
    have h1 : '\n' ∉ m := hm m (List.mem_cons_self m msgs)
    have h2 : ∀ x ∈ msgs, '\n' ∉ x := fun x hx => hm x (List.mem_cons_of_mem m hx)
    have hrw : ((m :: msgs).map (fun m => m ++ ['\n'])).flatten ++ rest =
        m ++ '\n' :: ((msgs.map (fun m => m ++ ['\n'])).flatten ++ rest) := by
      simp
    rw [hrw, splitNl_msg _ _ h1, ih h2]
    rfl

/-- C3: Framing round-trip. For every finite sequence of well-formed
newline-terminated PDUs, concatenated and then split at arbitrary boundaries
into arbitrary chunks, feeding the chunks in order to the per-connection
buffer logic (append chunk, split on newline, keep the last fragment
buffered) yields exactly the original ordered sequence of complete messages,
with any bytes after the last terminator retained in the buffer. -/
theorem framingRoundTrip (msgs : List (List Char)) (rest : List Char)
    (chunks : List (List Char))
    (hm : ∀ m ∈ msgs, '\n' ∉ m) (hr : '\n' ∉ rest)
    (hsplit : chunks.flatten = (msgs.map (fun m => m ++ ['\n'])).flatten ++ rest) :
    feedAll [] chunks = (msgs, rest) := by
  rw [feedAll_eq_feed_flatten [] chunks (by simp), hsplit]
  simp only [feed, List.nil_append, splitNl_terminated msgs rest hm hr]
  rw [List.dropLast_concat, getLastD_concat]

theorem framingRoundTrip_witness :
    (∀ m ∈ [['a'], ['b', 'c']], '\n' ∉ m) ∧ '\n' ∉ ['d'] ∧
    ([['a', '\n', 'b'], ['c', '\n', 'd']] : List (List Char)).flatten =
      (([['a'], ['b', 'c']].map (fun m => m ++ ['\n'])).flatten ++ ['d']) ∧
    feedAll [] [['a', '\n', 'b'], ['c', '\n', 'd']] = ([['a'], ['b', 'c']], ['d']) :=
  ⟨by decide, by decide, by decide,
    framingRoundTrip [['a'], ['b', 'c']] ['d'] [['a', '\n', 'b'], ['c', '\n', 'd']]
      (by decide) (by decide) (by decide)⟩

theorem filter_middle_pending (t1 t2 : List WorkerTask) :
    ((t1 ++ .pending :: t2).filter WorkerTask.isRunning).length =
      ((t1 ++ t2).filter WorkerTask.isRunning).length := by
  simp [List.filter_append, List.filter_cons, WorkerTask.isRunning]

theorem filter_middle_running (t1 t2 : List WorkerTask) (j : Job) :
    ((t1 ++ .running j :: t2).filter WorkerTask.isRunning).length =
      ((t1 ++ t2).filter WorkerTask.isRunning).length + 1 := by
  simp [List.filter_append, List.filter_cons, WorkerTask.isRunning]
  omega

theorem dinv_init : DInv initState :=
  ⟨fun h => by simp [initState] at h, fun _ => rfl, rfl⟩

theorem dinv_step {s s' : DState} (hs : DInv s) (hstep : DStep s s') : DInv s' := by
  obtain ⟨h1, h0, hq⟩ := hs
  cases hstep with
  | enqueue j =>
    refine ⟨?_, ?_, ?_⟩
    · intro h
      have := h1 h
      simpa [runningCount, List.filter_append, WorkerTask.isRunning] using this
    · intro h
      have := h0 h
      simpa [runningCount, List.filter_append, WorkerTask.isRunning] using this
    · show s.started ++ (s.processingQueue ++ [j]) = s.admitted ++ [j]
      rw [← List.append_assoc, hq]
  | guardReturn t1 t2 ht hguard =>
    refine ⟨?_, ?_, hq⟩
    · intro h
      have := h1 h
      rw [runningCount, ht, filter_middle_pending] at this
      simpa [runningCount] using this
    · intro h
      have := h0 h
      rw [runningCount, ht, filter_middle_pending] at this
      simpa [runningCount] using this
  | guardPass t1 t2 j rest ht hflag hqueue =>
    have hzero := h0 hflag
    rw [runningCount, ht, filter_middle_pending] at hzero
    refine ⟨?_, ?_, ?_⟩
    · intro _
      show ((t1 ++ .running j :: t2).filter WorkerTask.isRunning).length = 1
      rw [filter_middle_running]
      omega
    · intro h
      exact absurd h (by simp)
    · show (s.started ++ [j]) ++ rest = s.admitted
      rw [List.append_assoc, List.singleton_append, ← hqueue]
      exact hq
  | finish t1 t2 j ht =>
    have hflag : s.isProcessing = true := by
      cases hb : s.isProcessing with
      | true => rfl
      | false =>
        have h0' := h0 hb
        rw [runningCount, ht, filter_middle_running] at h0'
        omega
    have hone := h1 hflag
    rw [runningCount, ht, filter_middle_running] at hone
    refine ⟨?_, ?_, hq⟩
    · intro h
      exact absurd h (by simp)
    · intro _
      show ((t1 ++ .pending :: t2).filter WorkerTask.isRunning).length = 0
      rw [filter_middle_pending]
      omega

theorem dinv_reachable {s : DState} (h : Reachable s) : DInv s := by
  induction h with
  | init => exact dinv_init
  | step _ hstep ih => exact dinv_step ih hstep

/-- C1: At most one Job is ever in the invoke-handler-to-write-response window
at any instant: in every reachable state of the dispatcher step relation
(enqueue pushes from any connection, processQueue guarded by the isProcessing
flag, flag cleared only after the response or error write), the number of
jobs currently executing is at most one, system-wide. -/
theorem atMostOneActiveJob (s : DState) (h : Reachable s) :
    (s.tasks.filter WorkerTask.isRunning).length ≤ 1 := by
  obtain ⟨h1, h0, -⟩ := dinv_reachable h
  cases hb : s.isProcessing with
  | false =>
    have := h0 hb
    rw [runningCount] at this
    omega
  | true =>
    have := h1 hb
    rw [runningCount] at this
    omega

theorem atMostOneActiveJob_witness :
    (dState2.tasks.filter WorkerTask.isRunning).length ≤ 1 := by
  have h1 : Reachable dState1 :=
    Reachable.step Reachable.init (DStep.enqueue initState jobPing)
  have h2 : Reachable dState2 :=
    Reachable.step h1 (DStep.guardPass _ [] [] jobPing [] rfl rfl rfl)
  exact atMostOneActiveJob _ h2

/-- C2: Global FIFO execution order. In every reachable state the
execution-begin log concatenated with the pending queue equals the admission
log; hence if job J1 is admitted strictly before J2 (position i < j in the
admission log) and J2 has begun executing, then J1 began executing earlier,
at the same positions i < j of the start log. -/
theorem globalFifo (s : DState) (h : Reachable s) :
    s.started ++ s.processingQueue = s.admitted ∧
    ∀ i j : Nat, i < j → j < s.started.length →
      i < s.started.length ∧
      s.started.getD i default = s.admitted.getD i default ∧
      s.started.getD j default = s.admitted.getD j default := by
  obtain ⟨-, -, hq⟩ := dinv_reachable h
  refine ⟨hq, ?_⟩
  intro i j hij hj
  have hi : i < s.started.length := lt_trans hij hj
  refine ⟨hi, ?_, ?_⟩
  · rw [← hq, List.getD_append _ _ _ _ hi]
  · rw [← hq, List.getD_append _ _ _ _ hj]

theorem globalFifo_witness :
    dState2.started ++ dState2.processingQueue = dState2.admitted := by
  have h1 : Reachable dState1 :=
    Reachable.step Reachable.init (DStep.enqueue initState jobPing)
  have h2 : Reachable dState2 :=
    Reachable.step h1 (DStep.guardPass _ [] [] jobPing [] rfl rfl rfl)
  exact (globalFifo _ h2).1

/-- C4: Auth rejection. A parsed request whose auth token differs from the
shared secret produces exactly one ERROR response echoing its request id,
the connection is closed by the server, no job is created and the queue is
unchanged. -/
theorem authRejection (parse : List Char → Option Message) (connId now : Nat)
    (raw : List Char) (rest : List (List Char)) (queue : List Job) (msg : Message)
    (hparse : parse raw = some msg) (hblank : trimChars raw ≠ [])
    (hauth : msg.header.auth_token ≠ some AUTH_TOKEN) :
    handleMessages parse connId now (raw :: rest) queue =
      { writes := [createResponse "ERROR" (.ofString "Unauthorized")
          msg.header.request_id now],
        queue := queue, stillOpen := false } := by
  simp [handleMessages, hblank, hparse, hauth]

theorem authRejection_witness :
    parseBad ['x'] = some msgBadAuth ∧ trimChars ['x'] ≠ [] ∧
    msgBadAuth.header.auth_token ≠ some AUTH_TOKEN ∧
    handleMessages parseBad 0 0 [['x']] [] =
      { writes := [createResponse "ERROR" (.ofString "Unauthorized") (some "r9") 0],
        queue := [], stillOpen := false } :=
  ⟨rfl, by decide, by decide,
    authRejection parseBad 0 0 ['x'] [] [] msgBadAuth rfl (by decide) (by decide)⟩

/-- C10: When one chunk yields several complete frames and one fails
authentication, the server writes the single ERROR response, closes the
connection and returns out of the per-chunk loop, so every frame positioned
after the rejected one in the same chunk is discarded without being parsed,
enqueued or answered, even if it carries a valid auth token: the outcome is
the same as if the later frames were absent. -/
theorem authRejectionDiscardsRest (parse : List Char → Option Message)
    (connId now : Nat) (raw : List Char) (rest : List (List Char))
    (queue : List Job) (msg : Message)
    (hparse : parse raw = some msg) (hblank : trimChars raw ≠ [])
    (hauth : msg.header.auth_token ≠ some AUTH_TOKEN) :
    handleMessages parse connId now (raw :: rest) queue =
      handleMessages parse connId now [raw] queue ∧
    (handleMessages parse connId now (raw :: rest) queue).writes.length = 1 ∧
    (handleMessages parse connId now (raw :: rest) queue).queue = queue ∧
    (handleMessages parse connId now (raw :: rest) queue).stillOpen = false := by
  simp [handleMessages, hblank, hparse, hauth]

theorem authRejectionDiscardsRest_witness :
    handleMessages parseBad 0 0 [['x'], ['y'], ['z']] [] =
      handleMessages parseBad 0 0 [['x']] [] ∧
    (handleMessages parseBad 0 0 [['x'], ['y'], ['z']] []).writes.length = 1 ∧
    (handleMessages parseBad 0 0 [['x'], ['y'], ['z']] []).queue = [] ∧
    (handleMessages parseBad 0 0 [['x'], ['y'], ['z']] []).stillOpen = false :=
  authRejectionDiscardsRest parseBad 0 0 ['x'] [['y'], ['z']] [] msgBadAuth rfl
    (by decide) (by decide)

/-- C7: Framing error isolation. A frame that fails to parse yields exactly
one generic ERROR response, no job is enqueued for it, the remaining frames
of the same flush are processed exactly as without it (same queue), and the
branch itself leaves the connection open. -/
theorem framingErrorIsolation (parse : List Char → Option Message)
    (connId now : Nat) (raw : List Char) (rest : List (List Char))
    (queue : List Job)
    (hparse : parse raw = none) (hblank : trimChars raw ≠ []) :
    handleMessages parse connId now (raw :: rest) queue =
      { writes := createResponse "ERROR" (.ofString "Invalid message format") none now ::
          (handleMessages parse connId now rest queue).writes,
        queue := (handleMessages parse connId now rest queue).queue,
        stillOpen := (handleMessages parse connId now rest queue).stillOpen } ∧
    handleMessages parse connId now [raw] queue =
      { writes := [createResponse "ERROR" (.ofString "Invalid message format") none now],
        queue := queue, stillOpen := true } := by
  constructor
  · simp [handleMessages, hblank, hparse]
  · simp [handleMessages, hblank, hparse]

theorem framingErrorIsolation_witness :
    parseFail ['x'] = none ∧ trimChars ['x'] ≠ [] ∧
    handleMessages parseFail 0 0 [['x']] [] =
      { writes := [createResponse "ERROR" (.ofString "Invalid message format") none 0],
        queue := [], stillOpen := true } :=
  ⟨rfl, by decide,
    (framingErrorIsolation parseFail 0 0 ['x'] [] [] rfl (by decide)).2⟩

/-- C9: Empty-frame drop. An extracted message that is empty, or empty after
trimming whitespace, is dropped silently: no error, no job, no response, and
the remaining frames of the feed are processed exactly as without it. -/
theorem emptyFrameDropped (parse : List Char → Option Message) (connId now : Nat)
    (raw : List Char) (rest : List (List Char)) (queue : List Job)
    (h : trimChars raw = []) :
    handleMessages parse connId now (raw :: rest) queue =
      handleMessages parse connId now rest queue := by
  simp [handleMessages, h]

theorem emptyFrameDropped_witness :
    trimChars [' '] = [] ∧
    handleMessages parseFail 0 0 [[' '], ['x']] [] =
      handleMessages parseFail 0 0 [['x']] [] :=
  ⟨by decide, emptyFrameDropped parseFail 0 0 [' '] [['x']] [] (by decide)⟩

/-- C5: Audit best-effort. For an UPLOAD_FILE job, even when the audit sink
fails on every invocation, the handler returns a success result, and the
dispatcher writes a response with status OK carrying the request filename and
the content length as size; sink failure is never an RPC failure. -/
theorem auditBestEffort (sink : UploadRecord → Except String Unit)
    (now startTime rand : Nat) (job : Job)
    (_hfail : ∀ rec, ∃ e, sink rec = .error e)
    (hmethod : job.method = RPC_METHODS.UPLOAD_FILE) :
    (executeMethod sink now startTime rand job.method job.payload).1 =
      .ok (.uploadResult "File uploaded successfully" job.payload.filename
        (contentSize job.payload) now) ∧
    (finishJob sink now startTime rand job true).write =
      some { status := "OK",
             result := .ofResult (.uploadResult "File uploaded successfully"
               job.payload.filename (contentSize job.payload) now),
             request_id := job.requestId, timestamp := now } := by
  constructor
  · simp [executeMethod, hmethod]
  · simp [finishJob, executeMethod, hmethod, createResponse]

theorem auditBestEffort_witness :
    (∀ rec, ∃ e, failingSink rec = Except.error e) ∧
    jobUpload.method = RPC_METHODS.UPLOAD_FILE ∧
    (executeMethod failingSink 5 1 7 jobUpload.method jobUpload.payload).1 =
      .ok (.uploadResult "File uploaded successfully" (some "a.txt") 5 5) ∧
    (finishJob failingSink 5 1 7 jobUpload true).write =
      some { status := "OK",
             result := .ofResult (.uploadResult "File uploaded successfully"
               (some "a.txt") 5 5),
             request_id := some "r3", timestamp := 5 } := by
  have hfail : ∀ rec, ∃ e, failingSink rec = Except.error e :=
    fun rec => ⟨"convex unreachable", by simp [failingSink]⟩
  have h := auditBestEffort failingSink 5 1 7 jobUpload hfail rfl
  exact ⟨hfail, rfl, by simpa [jobUpload, contentSize] using h.1,
    by simpa [jobUpload, contentSize] using h.2⟩

/-- C6: Unknown method isolation. An admitted job whose method has no
registered handler fails with exactly the message "Unknown method: " followed
by the method name; the dispatcher converts it into an ERROR response with
that text and the job request id, the connection stays open, and a subsequent
valid PING job on the same connection gets an OK response. -/
theorem unknownMethodIsolation (sink : UploadRecord → Except String Unit)
    (now startTime rand : Nat) (job : Job)
    (h : job.method ∉ registeredMethods) :
    (executeMethod sink now startTime rand job.method job.payload).1 =
      .error ("Unknown method: " ++ job.method) ∧
    finishJob sink now startTime rand job true =
      { write := some (createResponse "ERROR"
          (.ofString ("Unknown method: " ++ job.method)) job.requestId now),
        audits := [], socketOpen := true } ∧
    ∀ job2 : Job, job2.method = RPC_METHODS.PING →
      (finishJob sink now startTime rand job2 true).write =
        some (createResponse "OK"
          (.ofResult (.pingResult true now ((now - startTime) / 1000)))
          job2.requestId now) ∧
      (finishJob sink now startTime rand job2 true).socketOpen = true := by
  simp only [registeredMethods, List.mem_cons, List.not_mem_nil, or_false,
    not_or] at h
  obtain ⟨h1, h2, h3, h4, h5⟩ := h
  refine ⟨?_, ?_, ?_⟩
  · simp [executeMethod, h1, h2, h3, h4, h5]
  · simp [finishJob, executeMethod, h1, h2, h3, h4, h5, createResponse]
  · intro job2 hping
    have e1 : RPC_METHODS.PING ≠ RPC_METHODS.UPLOAD_FILE := by decide
    have e2 : RPC_METHODS.PING ≠ RPC_METHODS.LIST_FILES := by decide
    have e3 : RPC_METHODS.PING ≠ RPC_METHODS.DELETE_FILE := by decide
    have e4 : RPC_METHODS.PING ≠ RPC_METHODS.CHECK_BALANCE := by decide
    constructor
    · simp [finishJob, executeMethod, hping, e1, e2, e3, e4, createResponse]
    · simp [finishJob, executeMethod, hping, e1, e2, e3, e4]

theorem unknownMethodIsolation_witness :
    jobNope.method ∉ registeredMethods ∧
    (executeMethod failingSink 5 1 7 jobNope.method jobNope.payload).1 =
      .error ("Unknown method: " ++ jobNope.method) ∧
    finishJob failingSink 5 1 7 jobNope true =
      { write := some (createResponse "ERROR"
          (.ofString ("Unknown method: " ++ jobNope.method)) jobNope.requestId 5),
        audits := [], socketOpen := true } ∧
    (finishJob failingSink 5 1 7 jobPing true).write =
      some (createResponse "OK" (.ofResult (.pingResult true 5 ((5 - 1) / 1000)))
        jobPing.requestId 5) := by
  have h := unknownMethodIsolation failingSink 5 1 7 jobNope (by decide)
  exact ⟨by decide, h.1, h.2.1, (h.2.2 jobPing rfl).1⟩

/-- C8: Closed-connection suppression without cancellation. When the owning
socket is already destroyed at completion time, the final response write is
silently skipped, while the handler, including its audit side effect, runs
exactly as for an open connection: the audit calls are identical for open and
closed sockets and always equal the calls made by executeMethod itself. -/
theorem closedConnectionSuppression (sink : UploadRecord → Except String Unit)
    (now startTime rand : Nat) (job : Job) :
    (finishJob sink now startTime rand job false).write = none ∧
    (finishJob sink now startTime rand job false).audits =
      (finishJob sink now startTime rand job true).audits ∧
    ∀ b : Bool, (finishJob sink now startTime rand job b).audits =
      (executeMethod sink now startTime rand job.method job.payload).2 := by
  cases hexec : executeMethod sink now startTime rand job.method job.payload with
  | mk res audits =>
    cases res with
    | ok r => simp [finishJob, hexec]
    | error e => simp [finishJob, hexec]
